import Mathlib

/-!
Verification development for the grid-control core: a shallow embedding of
the parameter-source algebra (`grid_control/parameters/psource_meta.py`),
the job record (`grid_control/job_db.py`) and the local dispatcher
(`grid_control/backends/wms_local.py`), with theorems checking the
specification's statements against it.

Conventions of the embedding:
* parameter lengths are `Option Nat`; `none` models Python `None`
  (a source of infinite / undefined length);
* a leaf source carries its length and a content function `Nat → List KV`
  (what `fill_parameter_content` appends to the result list);
* Python branches that would raise `TypeError`/`ZeroDivisionError` on
  malformed raw trees (a chain holding an unwrapped infinite child, a
  repeat of an infinite or empty child) are modelled as no-ops returning
  the result unchanged; the smart constructors below never build such
  trees, mirroring the `__new__`/`__init__` normalizations of the source.
-/

/-- A key/value pair of a parameter point, as appended to the `result`
list by `fill_parameter_content`. -/
abbrev KV := String × String

/-- The parameter-source tree of `psource_meta.py`:
`NullParameterSource`, leaf sources, `TruncateParameterSource`,
`ChainParameterSource`, `CrossParameterSource`, `RepeatParameterSource`,
`ZipLongParameterSource` and `ZipShortParameterSource`. -/
inductive PSrc where
  | null : PSrc
  | leaf (len : Option Nat) (content : Nat → List KV) : PSrc
  | truncate (child : PSrc) (maxLen : Nat) : PSrc
  | chain (children : List PSrc) : PSrc
  | cross (children : List PSrc) : PSrc
  | repeatS (child : PSrc) (times : Nat) : PSrc
  | zipLong (children : List PSrc) : PSrc
  | zipShort (children : List PSrc) : PSrc

/-- `isinstance(p, NullParameterSource)` — used by `_strip_null_sources`. -/
def PSrc.isNull : PSrc → Bool
  | .null => true
  | _ => false

/-- `isinstance(p, CrossParameterSource)` — used by `_simplify_nested_sources`. -/
def PSrc.isCross : PSrc → Bool
  | .cross _ => true
  | _ => false

/-- `isinstance(p, ZipLongParameterSource)`. -/
def PSrc.isZipLong : PSrc → Bool
  | .zipLong _ => true
  | _ => false

/-- `isinstance(p, ZipShortParameterSource)`. -/
def PSrc.isZipShort : PSrc → Bool
  | .zipShort _ => true
  | _ => false

/-- `_strip_null_sources(psrc_list)`. -/
def stripNull (l : List PSrc) : List PSrc :=
  l.filter fun p => !p.isNull

/-- `sum(self._psrc_max_list)` for `ChainParameterSource._init_psrc_max`;
`none` when some entry is `None` (where Python would raise `TypeError`,
unreachable for constructor-built chains). -/
def optSum : List (Option Nat) → Option Nat
  | [] => some 0
  | none :: _ => none
  | some n :: rest => (optSum rest).map fun m => n + m

/-- `CrossParameterSource._init_psrc_max`: product of the non-`None`
lengths, `None` if there is none. -/
def optProd (l : List (Option Nat)) : Option Nat :=
  match l.filterMap id with
  | [] => none
  | x :: xs => some (xs.foldl (fun a b => a * b) x)

/-- `BaseZipParameterSource._init_psrc_max` with `len_fun = max`. -/
def optMax (l : List (Option Nat)) : Option Nat :=
  match l.filterMap id with
  | [] => none
  | x :: xs => some (xs.foldl Nat.max x)

/-- `BaseZipParameterSource._init_psrc_max` with `len_fun = min`. -/
def optMin (l : List (Option Nat)) : Option Nat :=
  match l.filterMap id with
  | [] => none
  | x :: xs => some (xs.foldl Nat.min x)

mutual

/-- `get_parameter_len()` of each node kind (`_init_psrc_max` for the
multi sources, `_max_len` for truncate, `times * child_len` for repeat). -/
def getLen : PSrc → Option Nat
  | .null => some 0
  | .leaf len _ => len
  | .truncate _ maxLen => some maxLen
  | .chain cs => optSum (getLenList cs)
  | .cross cs => optProd (getLenList cs)
  | .repeatS c times =>
    match getLen c with
    | some n => some (times * n)
    | none => some times
  | .zipLong cs => optMax (getLenList cs)
  | .zipShort cs => optMin (getLenList cs)

/-- Lengths of a list of children. -/
def getLenList : List PSrc → List (Option Nat)
  | [] => []
  | c :: rest => getLen c :: getLenList rest

end

mutual

/-- `fill_parameter_content(pnum, result)` of each node kind; the result
list is threaded explicitly. -/
def fillContent : PSrc → Nat → List KV → List KV
  | .null, _, res => res
  | .leaf _ content, pnum, res => res ++ content pnum
  | .truncate c _, pnum, res =>
    match getLen c with
    | none => fillContent c pnum res
    | some n => if pnum < n then fillContent c pnum res else res
  | .chain cs, pnum, res => chainFill cs pnum res
  | .cross cs, pnum, res => crossFill cs 1 pnum res
  | .repeatS c _, pnum, res =>
    match getLen c with
    | some n => if n = 0 then res else fillContent c (pnum % n) res
    | none => res
  | .zipLong cs, pnum, res => zipFill cs pnum res
  | .zipShort cs, pnum, res => zipFill cs pnum res

/-- `ChainParameterSource.fill_parameter_content`: walk the children with a
running `limit`; delegate to the first child whose range contains `pnum`. -/
def chainFill : List PSrc → Nat → List KV → List KV
  | [], _, res => res
  | c :: rest, pnum, res =>
    match getLen c with
    | some n => if pnum < n then fillContent c pnum res else chainFill rest (pnum - n) res
    | none => res

/-- `CrossParameterSource.fill_parameter_content` over `_psrc_info_list`:
each finite nonempty child `i` is filled at `(pnum / group_i) % len_i`,
where `group_i` is the product of the preceding finite nonempty lengths;
an infinite child is filled at `pnum`; a zero-length child is skipped. -/
def crossFill : List PSrc → Nat → Nat → List KV → List KV
  | [], _, _, res => res
  | c :: rest, group, pnum, res =>
    match getLen c with
    | some n =>
      if n = 0 then crossFill rest group pnum res
      else crossFill rest (group * n) pnum (fillContent c ((pnum / group) % n) res)
    | none => crossFill rest group pnum (fillContent c pnum res)

/-- `BaseZipParameterSource.fill_parameter_content`: each finite child sees
`pnum` if `pnum` is below its length; an infinite child always sees `pnum`. -/
def zipFill : List PSrc → Nat → List KV → List KV
  | [], _, res => res
  | c :: rest, pnum, res =>
    match getLen c with
    | some n => if pnum < n then zipFill rest pnum (fillContent c pnum res) else zipFill rest pnum res
    | none => zipFill rest pnum (fillContent c pnum res)

end

/-- `get_nested_psrc_list()` of a multi source (its `_psrc_list`). -/
def PSrc.nestedChildren : PSrc → List PSrc
  | .chain cs => cs
  | .cross cs => cs
  | .zipLong cs => cs
  | .zipShort cs => cs
  | _ => []

/-- `_simplify_nested_sources(CrossParameterSource, psrc_list)`. -/
def flattenCross (l : List PSrc) : List PSrc :=
  l.flatMap fun p => if p.isCross then p.nestedChildren else [p]

/-- `_simplify_nested_sources(ZipLongParameterSource, psrc_list)`. -/
def flattenZipLong (l : List PSrc) : List PSrc :=
  l.flatMap fun p => if p.isZipLong then p.nestedChildren else [p]

/-- `_simplify_nested_sources(ZipShortParameterSource, psrc_list)`. -/
def flattenZipShort (l : List PSrc) : List PSrc :=
  l.flatMap fun p => if p.isZipShort then p.nestedChildren else [p]

/-- `TruncateParameterSource.__new__`: `max_len == 0` gives the null
source, `max_len < 0` gives the child unchanged, otherwise a truncate
node. -/
def truncateNew (psrc : PSrc) (maxLen : Int) : PSrc :=
  if maxLen = 0 then .null
  else if maxLen < 0 then psrc
  else .truncate psrc maxLen.toNat

/-- `RepeatParameterSource.__new__`: `times < 0` gives the child; an
infinite child gives `TruncateParameterSource(child, times)`; `times == 0`
gives null; `times == 1` gives the child; otherwise a repeat node. -/
def repeatNew (psrc : PSrc) (times : Int) : PSrc :=
  if times < 0 then psrc
  else if getLen psrc = none then truncateNew psrc times
  else if times = 0 then .null
  else if times = 1 then psrc
  else .repeatS psrc times.toNat

/-- `ZipLongParameterSource(*psrc_list)`: `MultiParameterSource.__new__`
strips null children and collapses a single remaining child (or none);
otherwise `__init__` builds the node over the flattened, null-stripped
argument list. -/
def zipLongNew (l : List PSrc) : PSrc :=
  match stripNull l with
  | [] => .null
  | [s] => s
  | _ => .zipLong (stripNull (flattenZipLong l))

/-- `ZipShortParameterSource(*psrc_list)`, as for `zipLongNew`. -/
def zipShortNew (l : List PSrc) : PSrc :=
  match stripNull l with
  | [] => .null
  | [s] => s
  | _ => .zipShort (stripNull (flattenZipShort l))

/-- `CrossParameterSource.__new__` / `__init__`: with fewer than two
finite children (after null stripping) the cross collapses to a zip-long;
otherwise the node is built over the flattened, null-stripped arguments. -/
def crossNew (l : List PSrc) : PSrc :=
  if ((stripNull l).filter fun p => (getLen p).isSome).length < 2 then
    zipLongNew (stripNull l)
  else .cross (stripNull (flattenCross l))

/-- `ChainParameterSource`: `MultiParameterSource.__new__` strips nulls
and collapses zero or one children (in which case `__init__` never runs);
otherwise `__init__` wraps each infinite child in
`TruncateParameterSource(child, 1)`. -/
def chainNew (l : List PSrc) : PSrc :=
  match stripNull l with
  | [] => .null
  | [s] => s
  | _ => .chain ((stripNull l).map fun c =>
      if getLen c = none then truncateNew c 1 else c)

/-- The job state enum of `job_db.py` (`make_enum([...], Job)`). -/
inductive JobState where
  | INIT | SUBMITTED | DISABLED | READY | WAITING | QUEUED | ABORTED
  | RUNNING | CANCEL | UNKNOWN | CANCELLED | DONE | FAILED | SUCCESS
deriving DecidableEq, Repr

/-- The `Job` record of `job_db.py`; the two dictionaries are association
lists, timestamps are naturals (the value of `time.time()` is passed in
explicitly). -/
structure Job where
  state : JobState
  attempt : Nat
  history : List (Nat × String)
  gc_id : Option String
  submitted : Nat
  changed : Nat
  dict : List (String × String)
deriving Repr

/-- `Job.__init__`. -/
def jobInit : Job :=
  { state := .INIT, attempt := 0, history := [], gc_id := none,
    submitted := 0, changed := 0, dict := [] }

/-- `dict.get(key, default)` on a string association list. -/
def dictGet (d : List (String × String)) (key dflt : String) : String :=
  match d.find? (fun kv => kv.1 == key) with
  | some kv => kv.2
  | none => dflt

/-- `history[key] = v` on the history association list. -/
def historySet (h : List (Nat × String)) (key : Nat) (v : String) : List (Nat × String) :=
  (key, v) :: h.filter fun kv => kv.1 != key

/-- `history[key]` lookup. -/
def historyGet (h : List (Nat × String)) (key : Nat) : Option String :=
  (h.find? (fun kv => kv.1 == key)).map Prod.snd

/-- `Job.assign_id(gc_id)`: store the id, increment the attempt counter,
set the submission timestamp. -/
def Job.assign_id (j : Job) (gcId : String) (now : Nat) : Job :=
  { j with gc_id := some gcId, attempt := j.attempt + 1, submitted := now }

/-- `Job.update(state)`: set the state, set the change timestamp, and
snapshot `dict.get('dest', 'N/A')` into `history[attempt]`. -/
def Job.update (j : Job) (st : JobState) (now : Nat) : Job :=
  { j with
    state := st
    changed := now
    history := historySet j.history j.attempt (dictGet j.dict "dest" "N/A") }

/-- The observable outcome of `LocalWMS._submit_job` after the submit
process has run: the returned triple `(jobnum, gc_id or None, {sandbox})`
plus whether the marker file was opened in the sandbox. -/
structure SubmitResult where
  jobnum : Nat
  gcId : Option String
  sandbox : String
  markerCreated : Bool
deriving Repr, DecidableEq

/-- Modelled from the spec: `_create_gc_id` is defined in
`grid_control/backends/wms.py`, which is not among the sources; the spec
fixes the format `WMSID.<BACKEND>.<RAW>`. -/
def createGcId (backend raw : String) : String :=
  "WMSID." ++ backend ++ "." ++ raw

/-- Python truthiness of the parsed submit output: `None` and the empty
string are falsy (`parsed = none` models `parseSubmitOutput` raising). -/
def pyTruthyStr : Option String → Bool
  | none => false
  | some s => s != ""

/-- The tail of `LocalWMS._submit_job` (lines 139-157): `exit_code` is the
status of the submit process, `parsed` the result of `parseSubmitOutput`
on its stdout (`none` when parsing raised).  If the parsed id is truthy it
is turned into a gc id and the marker file is created — regardless of the
exit code, which only selects a warning message; otherwise the returned
gc id is `None` and no marker is created. -/
def submitJobResult (jobnum : Nat) (sandbox backend : String)
    (_exitCode : Int) (parsed : Option String) : SubmitResult :=
  if pyTruthyStr parsed then
    { jobnum := jobnum, gcId := some (createGcId backend (parsed.getD "")),
      sandbox := sandbox, markerCreated := true }
  else
    { jobnum := jobnum, gcId := none, sandbox := sandbox, markerCreated := false }

/-- The fixed probe table of `Local.__new__`: executable name and the
backend chosen when it resolves. -/
def probeList : List (String × String) :=
  [("sacct", "SLURM"), ("sgepasswd", "OGE"), ("pbs-config", "PBS"),
   ("qsub", "OGE"), ("bsub", "LSF"), ("job_slurm", "JMS")]

/-- The probe loop of `Local.__new__`: return the backend of the first
entry whose executable resolves; collect each failed probe (the
`ExceptionCollector`) and fail with all of them when none resolves. -/
def localProbe (resolves : String → Bool) :
    List (String × String) → List String → Except (List String) String
  | [], failed => .error failed
  | (cmd, wms) :: rest, failed =>
    if resolves cmd then .ok wms else localProbe resolves rest (failed ++ [cmd])

/-- `Local.__new__` with no explicit `wms` configured: run the probe loop
over the fixed table. -/
def localDetect (resolves : String → Bool) : Except (List String) String :=
  localProbe resolves probeList []

/-- One metadata entry as used by `fill_parameter_metadata`: the parameter
name (`metadata.value`) and its `untracked` flag. -/
structure MetaEntry where
  value : String
  untracked : Bool
deriving DecidableEq, Repr

/-- `MultiParameterSource.fill_parameter_metadata` over the concatenated
child metadata entries: a name already seen raises the parameter-collision
error, otherwise the entry is appended and the name recorded. -/
def multiMergeMeta : List MetaEntry → List String → Except String (List MetaEntry)
  | [], _ => .ok []
  | m :: rest, seen =>
    if seen.contains m.value then
      .error ("Collisions of parameter " ++ m.value)
    else
      match multiMergeMeta rest (m.value :: seen) with
      | .ok out => .ok (m :: out)
      | .error e => .error e

/-- `ChainParameterSource.fill_parameter_metadata` over the concatenated
child metadata entries: the first occurrence of a name fixes its tracking
status (`setdefault`) and is appended; a later occurrence with a different
`untracked` flag raises the tracking-collision error, one with the same
flag is skipped. -/
def chainMergeMeta : List MetaEntry → List (String × Bool) → Except String (List MetaEntry)
  | [], _ => .ok []
  | m :: rest, seen =>
    match seen.find? (fun kv => kv.1 == m.value) with
    | some kv =>
      if kv.2 != m.untracked then
        .error ("Collisions of tracking status for parameter " ++ m.value)
      else chainMergeMeta rest seen
    | none =>
      match chainMergeMeta rest ((m.value, m.untracked) :: seen) with
      | .ok out => .ok (m :: out)
      | .error e => .error e

/-- Agreement of the tracking flags: any two entries for the same
parameter name carry the same `untracked` flag. -/
def metaConsistent (entries : List MetaEntry) : Prop :=
  ∀ m₁ ∈ entries, ∀ m₂ ∈ entries, m₁.value = m₂.value → m₁.untracked = m₂.untracked

/-! ## Helper lemmas -/

theorem historyGet_historySet (h : List (Nat × String)) (k : Nat) (v : String) :
    historyGet (historySet h k v) k = some v := by
  simp [historyGet, historySet]

/-- A concrete source of infinite (undefined) length. -/
def psrcInfExample : PSrc := .leaf none fun _ => []

/-! ## Claims -/

/-- C7: a freshly created job is in state `INIT` with attempt 0;
`assign_id` stores the gc id, increments the attempt by one and sets the
submitted timestamp; `update` sets the state and the changed timestamp and
writes the current `dict['dest']` (default `'N/A'`) into the history at
the current attempt, leaving gc id, attempt and submitted unchanged. -/
theorem c7_job_lifecycle :
    (jobInit.state = JobState.INIT ∧ jobInit.attempt = 0) ∧
    (∀ (j : Job) (g : String) (now : Nat),
      (j.assign_id g now).gc_id = some g ∧
      (j.assign_id g now).attempt = j.attempt + 1 ∧
      (j.assign_id g now).submitted = now) ∧
    (∀ (j : Job) (st : JobState) (now : Nat),
      (j.update st now).state = st ∧
      (j.update st now).changed = now ∧
      historyGet (j.update st now).history j.attempt
        = some (dictGet j.dict "dest" "N/A") ∧
      (j.update st now).gc_id = j.gc_id ∧
      (j.update st now).attempt = j.attempt ∧
      (j.update st now).submitted = j.submitted) := by
  refine ⟨⟨rfl, rfl⟩, fun j g now => ⟨rfl, rfl, rfl⟩,
    fun j st now => ⟨rfl, rfl, ?_, rfl, rfl, rfl⟩⟩
  exact historyGet_historySet _ _ _

/-- C10: updating a job whose dict has no `'dest'` key records the literal
string `'N/A'` in the history at the current attempt. -/
theorem c10_update_missing_dest (j : Job) (st : JobState) (now : Nat)
    (h : j.dict.find? (fun kv => kv.1 == "dest") = none) :
    historyGet (j.update st now).history j.attempt = some "N/A" := by
  have : dictGet j.dict "dest" "N/A" = "N/A" := by simp [dictGet, h]
  simpa [Job.update, this] using historyGet_historySet j.history j.attempt
    (dictGet j.dict "dest" "N/A")

theorem c10_witness :
    historyGet (jobInit.update JobState.DONE 5).history jobInit.attempt
      = some "N/A" :=
  c10_update_missing_dest jobInit JobState.DONE 5 rfl

/-- C2, counterexample to the claim as stated: with exit code 1 and a
parseable stdout (`'42'`), `_submit_job` still records a gc id and creates
the marker file — a non-zero exit code does not force a nil job id. -/
theorem c2_counterexample :
    (1 : Int) ≠ 0 ∧
    (submitJobResult 7 "sbx" "TEST" 1 (some "42")).gcId = some "WMSID.TEST.42" ∧
    (submitJobResult 7 "sbx" "TEST" 1 (some "42")).markerCreated = true := by
  refine ⟨by decide, by rfl, by rfl⟩

/-- C2, amended: whenever the parsed submit output is falsy (parse raised,
or the parsed id is `None`/empty), the returned triple is
`(jobnum, nil, {sandbox})` and no marker file is created — regardless of
the exit code; the exit code itself only selects which warning is logged. -/
theorem c2_submit_nil_on_parse_failure (jobnum : Nat) (sandbox backend : String)
    (exitCode : Int) (parsed : Option String)
    (h : pyTruthyStr parsed = false) :
    submitJobResult jobnum sandbox backend exitCode parsed
      = { jobnum := jobnum, gcId := none, sandbox := sandbox,
          markerCreated := false } := by
  simp [submitJobResult, h]

theorem c2_submit_nil_witness :
    submitJobResult 7 "sbx" "TEST" 1 none
      = { jobnum := 7, gcId := none, sandbox := "sbx", markerCreated := false } :=
  c2_submit_nil_on_parse_failure 7 "sbx" "TEST" 1 none rfl

/-- C3, counterexample to the claim as stated: `repeat` of a source of
infinite (undefined) length with `times = 1` does not return that source
as-is (nor `s` for `repeat(s, 1)`): it returns `truncate(s, 1)`. -/
theorem c3_counterexample :
    getLen psrcInfExample = none ∧
    repeatNew psrcInfExample 1 ≠ psrcInfExample := by
  constructor
  · rfl
  · simp [repeatNew, truncateNew, getLen, psrcInfExample]

/-- C3, amended: `repeat(s, 1)` returns `s` itself when `s` has finite
length; `repeat(s, 0)` returns the null source; `repeat` of a source of
infinite (undefined) length with `k ≥ 0` returns `truncate(s, k)` (hence
null for `k = 0`); and `repeat(s, k)` with `k < 0` returns `s` itself for
any `s`. -/
theorem c3_amended_repeat_normalization (s : PSrc) (k : Int) :
    (getLen s ≠ none → repeatNew s 1 = s) ∧
    (repeatNew s 0 = PSrc.null) ∧
    (getLen s = none → 0 ≤ k → repeatNew s k = truncateNew s k) ∧
    (k < 0 → repeatNew s k = s) := by
  refine ⟨fun h => ?_, ?_, fun h hk => ?_, fun hk => ?_⟩
  · simp [repeatNew, h]
  · by_cases h : getLen s = none <;> simp [repeatNew, truncateNew, h]
  · simp [repeatNew, h, Int.not_lt.mpr hk]
  · simp [repeatNew, hk]

theorem c3_amended_witness :
    repeatNew (PSrc.leaf (some 2) (fun _ => [])) 1
      = PSrc.leaf (some 2) (fun _ => []) ∧
    repeatNew psrcInfExample 2 = truncateNew psrcInfExample 2 ∧
    repeatNew psrcInfExample (-1) = psrcInfExample := by
  refine ⟨(c3_amended_repeat_normalization _ 1).1 (by simp [getLen]),
    (c3_amended_repeat_normalization _ 2).2.2.1 rfl (by decide),
    (c3_amended_repeat_normalization _ (-1)).2.2.2 (by decide)⟩

/-- C8: with no explicit backend name, `Local.__new__` probes the
executables in the order `sacct` (SLURM), `sgepasswd` (OGE), `pbs-config`
(PBS), `qsub` (OGE), `bsub` (LSF), `job_slurm` (JMS); the first probe that
resolves wins, and if none resolves the typed backend error aggregates all
six probe failures. -/
theorem c8_local_autodetect (resolves : String → Bool) :
    localDetect resolves =
      (if resolves "sacct" = true then Except.ok "SLURM"
       else if resolves "sgepasswd" = true then Except.ok "OGE"
       else if resolves "pbs-config" = true then Except.ok "PBS"
       else if resolves "qsub" = true then Except.ok "OGE"
       else if resolves "bsub" = true then Except.ok "LSF"
       else if resolves "job_slurm" = true then Except.ok "JMS"
       else Except.error ["sacct", "sgepasswd", "pbs-config", "qsub",
         "bsub", "job_slurm"]) := by
  cases h1 : resolves "sacct" <;> cases h2 : resolves "sgepasswd" <;>
    cases h3 : resolves "pbs-config" <;> cases h4 : resolves "qsub" <;>
      cases h5 : resolves "bsub" <;> cases h6 : resolves "job_slurm" <;>
        simp [localDetect, probeList, localProbe, h1, h2, h3, h4, h5, h6]

/-- Concrete leaf with two points, emitting parameter `A`. -/
def leafA : PSrc := .leaf (some 2) fun i => [("A", toString i)]

/-- Concrete leaf with three points, emitting parameter `B`. -/
def leafB : PSrc := .leaf (some 3) fun i => [("B", toString i)]

/-- C1: for a cross parameter source over two finite children `s1`, `s2`
and any index `p < len(s1) * len(s2)`, `fill_parameter_content` populates
the result with the content of `s1` at `p % len(s1)` followed by the
content of `s2` at `p / len(s1)` (group sizes 1 and `len(s1)`). -/
theorem c1_cross_fill (s1 s2 : PSrc) (n1 n2 p : Nat) (res : List KV)
    (h1 : getLen s1 = some n1) (h2 : getLen s2 = some n2)
    (hp : p < n1 * n2) :
    fillContent (PSrc.cross [s1, s2]) p res
      = fillContent s2 (p / n1) (fillContent s1 (p % n1) res) := by
  have hpos : 0 < n1 * n2 := Nat.lt_of_le_of_lt (Nat.zero_le p) hp
  have hn1 : n1 ≠ 0 := by rintro rfl; simp at hpos
  have hn2 : n2 ≠ 0 := by rintro rfl; simp at hpos
  have hdiv : p / n1 < n2 :=
    (Nat.div_lt_iff_lt_mul (Nat.pos_of_ne_zero hn1)).mpr
      (by rw [Nat.mul_comm]; exact hp)
  have hmod : (p / n1) % n2 = p / n1 := Nat.mod_eq_of_lt hdiv
  show crossFill [s1, s2] 1 p res = _
  simp [crossFill, h1, h2, hn1, hn2, Nat.div_one, hmod]

theorem c1_witness :
    fillContent (PSrc.cross [leafA, leafB]) 4 []
      = fillContent leafB (4 / 2) (fillContent leafA (4 % 2) []) :=
  c1_cross_fill leafA leafB 2 3 4 [] rfl rfl (by decide)

/-- C9: for a chain parameter source (whose children, as built by the
constructor, all have finite length) and any `pnum` at or beyond the sum
of the children's lengths, `fill_parameter_content` delegates to no child
and leaves the result unmodified. -/
theorem c9_chain_fill_noop (cs : List PSrc) (pnum : Nat) (res : List KV)
    (hfin : ∀ c ∈ cs, getLen c ≠ none)
    (hp : ((cs.map fun c => (getLen c).getD 0).sum) ≤ pnum) :
    fillContent (PSrc.chain cs) pnum res = res := by
  show chainFill cs pnum res = res
  induction cs generalizing pnum with
  | nil => rfl
  | cons c rest ih =>
    have hc : getLen c ≠ none := hfin c (List.mem_cons_self _ _)
    obtain ⟨n, hn⟩ := Option.ne_none_iff_exists'.mp hc
    have hsum : n + ((rest.map fun c => (getLen c).getD 0).sum) ≤ pnum := by
      simpa [hn] using hp
    have hnot : ¬ pnum < n := by omega
    simp only [chainFill, hn, hnot, if_false]
    exact ih (pnum - n) (fun c hc => hfin c (List.mem_cons_of_mem _ hc)) (by omega)

theorem c9_witness :
    fillContent (PSrc.chain [leafA, leafB]) 9 [("X", "x")] = [("X", "x")] := by
  refine c9_chain_fill_noop [leafA, leafB] 9 [("X", "x")] ?_ ?_
  · intro c hc
    simp only [List.mem_cons, List.not_mem_nil, or_false] at hc
    rcases hc with rfl | rfl <;> simp [leafA, leafB, getLen]
  · simp [leafA, leafB, getLen]

theorem getLenList_eq_map (l : List PSrc) : getLenList l = l.map getLen := by
  induction l with
  | nil => rfl
  | cons c rest ih => simp [getLenList, ih]

/-- The length a chain child contributes after the truncate-wrapping of
`ChainParameterSource.__init__`: an infinite child counts 1 (it was
wrapped in `truncate(child, 1)`), a finite child counts its own length. -/
def wrappedLen (c : PSrc) : Nat :=
  match getLen c with
  | none => 1
  | some k => k

theorem getLen_wrap (c : PSrc) :
    getLen (if getLen c = none then PSrc.truncate c 1 else c)
      = some (wrappedLen c) := by
  rcases h : getLen c with _ | k <;> simp [h, getLen, wrappedLen]

theorem optSum_map_some (f : PSrc → Nat) (l : List PSrc) :
    optSum (l.map fun c => some (f c)) = some ((l.map f).sum) := by
  induction l with
  | nil => rfl
  | cons c rest ih => simp [optSum, ih]

theorem isNull_iff (s : PSrc) : s.isNull = true ↔ s = PSrc.null := by
  cases s <;> simp [PSrc.isNull]

/-- C4: a chain built from a list with at least two non-null children
wraps every infinite child in `truncate(child, 1)` at construction time,
so its total length is the finite sum of the (wrapped) children's lengths;
in particular `chain(truncate(infinite, 1), s)` has length `1 + len(s)`. -/
theorem c4_chain_truncates_infinite (l : List PSrc) (sInf s : PSrc) (n : Nat)
    (hInf : getLen sInf = none) (hs : getLen s = some n) :
    (2 ≤ (stripNull l).length →
      chainNew l = PSrc.chain ((stripNull l).map fun c =>
        if getLen c = none then PSrc.truncate c 1 else c) ∧
      getLen (chainNew l) = some (((stripNull l).map wrappedLen).sum)) ∧
    getLen (chainNew [truncateNew sInf 1, s]) = some (1 + n) := by
  constructor
  · intro h2
    rcases heq : stripNull l with _ | ⟨a, _ | ⟨b, r⟩⟩
    · rw [heq] at h2; simp at h2
    · rw [heq] at h2; simp at h2
    · have hchain : chainNew l = PSrc.chain ((a :: b :: r).map fun c =>
          if getLen c = none then PSrc.truncate c 1 else c) := by
        simp only [chainNew, heq]
        refine congrArg PSrc.chain (List.map_congr_left fun c _ => ?_)
        by_cases hlen : getLen c = none <;> simp [hlen, truncateNew]
      refine ⟨hchain, ?_⟩
      rw [hchain]
      show optSum (getLenList _) = _
      rw [getLenList_eq_map, List.map_map]
      have hfun : (getLen ∘ fun c => if getLen c = none then PSrc.truncate c 1 else c)
          = fun c => some (wrappedLen c) := funext fun c => getLen_wrap c
      rw [hfun, optSum_map_some]
  · have ht : truncateNew sInf 1 = PSrc.truncate sInf 1 := by
      simp [truncateNew]
    rw [ht]
    by_cases hs0 : s.isNull = true
    · have : s = PSrc.null := (isNull_iff s).mp hs0
      subst this
      have : n = 0 := by simpa [getLen] using hs.symm
      subst this
      simp [chainNew, stripNull, PSrc.isNull, getLen]
    · have hs0f : s.isNull = false := by simpa using hs0
      have htr : (PSrc.truncate sInf 1).isNull = false := rfl
      have hstrip : stripNull [PSrc.truncate sInf 1, s]
          = [PSrc.truncate sInf 1, s] := by
        simp [stripNull, List.filter, htr, hs0f]
      have hchain : chainNew [PSrc.truncate sInf 1, s]
          = PSrc.chain ([PSrc.truncate sInf 1, s].map fun c =>
              if getLen c = none then truncateNew c 1 else c) := by
        simp only [chainNew, hstrip]
      rw [hchain]
      have hwl : getLen (PSrc.truncate sInf 1) = some 1 := rfl
      simp [getLen, getLenList, optSum, hwl, hs]

theorem c4_witness :
    chainNew [psrcInfExample, leafA]
      = PSrc.chain [PSrc.truncate psrcInfExample 1, leafA] ∧
    getLen (chainNew [psrcInfExample, leafA]) = some 3 ∧
    getLen (chainNew [truncateNew psrcInfExample 1, leafA]) = some (1 + 2) := by
  obtain ⟨h1, h2⟩ :=
    c4_chain_truncates_infinite [psrcInfExample, leafA] psrcInfExample leafA 2 rfl rfl
  obtain ⟨ha, hb⟩ := h1 (by decide)
  exact ⟨ha, hb, h2⟩

theorem mem_stripNull_not_null {c : PSrc} {l : List PSrc}
    (h : c ∈ stripNull l) : c.isNull = false := by
  have := List.of_mem_filter h
  simpa using this

theorem stripNull_idem (l : List PSrc) : stripNull (stripNull l) = stripNull l :=
  List.filter_eq_self.mpr fun a ha => by
    simpa using mem_stripNull_not_null ha

/-- C5: each multi-source constructor (chain, cross, zip-long, zip-short)
first strips the null children; if exactly one child remains it returns
that child itself, if none remains it returns the null source, and an
actually constructed multi node holds no null child. -/
theorem c5_multi_collapse (l : List PSrc) (s : PSrc) :
    (stripNull l = [] →
      chainNew l = PSrc.null ∧ crossNew l = PSrc.null ∧
      zipLongNew l = PSrc.null ∧ zipShortNew l = PSrc.null) ∧
    (stripNull l = [s] →
      chainNew l = s ∧ crossNew l = s ∧
      zipLongNew l = s ∧ zipShortNew l = s) ∧
    (2 ≤ (stripNull l).length →
      ∀ cs, (chainNew l = PSrc.chain cs ∨ crossNew l = PSrc.cross cs ∨
          zipLongNew l = PSrc.zipLong cs ∨ zipShortNew l = PSrc.zipShort cs) →
        ∀ c ∈ cs, c.isNull = false) := by
  refine ⟨fun heq => ?_, fun heq => ?_, fun h2 cs hdisj c hc => ?_⟩
  · refine ⟨?_, ?_, ?_, ?_⟩
    · simp only [chainNew, heq]
    · have hfin : ((stripNull l).filter fun p => (getLen p).isSome).length < 2 := by
        rw [heq]; simp
      simp only [crossNew]
      rw [if_pos hfin, heq]
      rfl
    · simp only [zipLongNew, heq]
    · simp only [zipShortNew, heq]
  · have hs0 : s.isNull = false :=
      mem_stripNull_not_null (heq ▸ List.mem_singleton.mpr rfl)
    have hstrip1 : stripNull [s] = [s] := by
      simp [stripNull, List.filter, hs0]
    refine ⟨?_, ?_, ?_, ?_⟩
    · simp only [chainNew, heq]
    · have hfin : ((stripNull l).filter fun p => (getLen p).isSome).length < 2 := by
        rw [heq]
        have hle := List.length_filter_le (fun p => (getLen p).isSome) [s]
        simp only [List.length_singleton] at hle
        omega
      simp only [crossNew]
      rw [if_pos hfin, heq]
      simp only [zipLongNew, hstrip1]
    · simp only [zipLongNew, heq]
    · simp only [zipShortNew, heq]
  · rcases hl : stripNull l with _ | ⟨a, _ | ⟨b, r⟩⟩
    · rw [hl] at h2; simp at h2
    · rw [hl] at h2; simp at h2
    · rcases hdisj with h | h | h | h
      · simp only [chainNew, hl] at h
        obtain rfl : ((a :: b :: r).map fun c =>
            if getLen c = none then truncateNew c 1 else c) = cs :=
          PSrc.chain.inj h
        rcases List.mem_map.mp hc with ⟨c', hc', rfl⟩
        have hne : c'.isNull = false := mem_stripNull_not_null (hl ▸ hc')
        by_cases hlen : getLen c' = none
        · simp [hlen, truncateNew, PSrc.isNull]
        · simpa [hlen] using hne
      · by_cases hfin : ((stripNull l).filter fun p => (getLen p).isSome).length < 2
        · have hl2 : stripNull (stripNull l) = a :: b :: r := by
            rw [stripNull_idem, hl]
          have hz : zipLongNew (stripNull l)
              = PSrc.zipLong (stripNull (flattenZipLong (stripNull l))) := by
            simp only [zipLongNew, hl2]
          simp only [crossNew] at h
          rw [if_pos hfin, hz] at h
          exact PSrc.noConfusion h
        · simp only [crossNew] at h
          rw [if_neg hfin] at h
          obtain rfl : stripNull (flattenCross l) = cs := PSrc.cross.inj h
          exact mem_stripNull_not_null hc
      · simp only [zipLongNew, hl] at h
        obtain rfl : stripNull (flattenZipLong l) = cs := PSrc.zipLong.inj h
        exact mem_stripNull_not_null hc
      · simp only [zipShortNew, hl] at h
        obtain rfl : stripNull (flattenZipShort l) = cs := PSrc.zipShort.inj h
        exact mem_stripNull_not_null hc

theorem c5_witness :
    (chainNew [PSrc.null] = PSrc.null ∧ crossNew [PSrc.null] = PSrc.null ∧
     zipLongNew [PSrc.null] = PSrc.null ∧ zipShortNew [PSrc.null] = PSrc.null) ∧
    (chainNew [PSrc.null, leafA] = leafA ∧ crossNew [PSrc.null, leafA] = leafA ∧
     zipLongNew [PSrc.null, leafA] = leafA ∧
     zipShortNew [PSrc.null, leafA] = leafA) :=
  ⟨(c5_multi_collapse [PSrc.null] PSrc.null).1 rfl,
   (c5_multi_collapse [PSrc.null, leafA] leafA).2.1 rfl⟩

theorem multiMergeMeta_ok_nodup (entries : List MetaEntry) :
    ∀ (seen : List String) (out : List MetaEntry),
      multiMergeMeta entries seen = .ok out →
      (entries.map MetaEntry.value).Nodup ∧
      ∀ m ∈ entries, seen.contains m.value = false := by
  induction entries with
  | nil => intro seen out _; simp
  | cons m rest ih =>
    intro seen out h
    simp only [multiMergeMeta] at h
    by_cases hc : seen.contains m.value = true
    · rw [if_pos hc] at h
      exact absurd h (by simp)
    · rw [if_neg hc] at h
      rcases hrec : multiMergeMeta rest (m.value :: seen) with e | out'
      · rw [hrec] at h; exact absurd h (by simp)
      rw [hrec] at h
      obtain ⟨hnd, hni⟩ := ih (m.value :: seen) out' hrec
      have hmem : ∀ m' ∈ rest, m'.value ≠ m.value := by
        intro m' hm' hv
        have := hni m' hm'
        simp [List.contains_cons, hv] at this
      refine ⟨?_, ?_⟩
      · simp only [List.map_cons, List.nodup_cons]
        exact ⟨fun hmm => by
          rcases List.mem_map.mp hmm with ⟨m', hm', hv⟩
          exact hmem m' hm' hv, hnd⟩
      · intro m' hm'
        rcases List.mem_cons.mp hm' with rfl | hm''
        · simpa using hc
        · have := hni m' hm''
          simp only [List.contains_cons] at this
          exact (Bool.or_eq_false_iff.mp this).2

theorem keys_nodup_unique {l : List (String × Bool)}
    (hnd : (l.map Prod.fst).Nodup) {x y : String × Bool}
    (hx : x ∈ l) (hy : y ∈ l) (hkey : x.1 = y.1) : x = y := by
  induction l with
  | nil => cases hx
  | cons z rest ih =>
    simp only [List.map_cons, List.nodup_cons] at hnd
    rcases List.mem_cons.mp hx with rfl | hx' <;>
      rcases List.mem_cons.mp hy with rfl | hy'
    · rfl
    · exact absurd (by rw [hkey]; exact List.mem_map_of_mem Prod.fst hy') hnd.1
    · exact absurd (by rw [← hkey]; exact List.mem_map_of_mem Prod.fst hx') hnd.1
    · exact ih hnd.2 hx' hy'

theorem chainMergeMeta_ok_consistent (entries : List MetaEntry) :
    ∀ (seen : List (String × Bool)) (out : List MetaEntry),
      (seen.map Prod.fst).Nodup →
      chainMergeMeta entries seen = .ok out →
      (∀ m ∈ entries, ∀ kv ∈ seen, kv.1 = m.value → kv.2 = m.untracked) ∧
      ∀ m₁ ∈ entries, ∀ m₂ ∈ entries,
        m₁.value = m₂.value → m₁.untracked = m₂.untracked := by
  induction entries with
  | nil => intro seen out _ _; simp
  | cons m rest ih =>
    intro seen out hnd h
    simp only [chainMergeMeta] at h
    rcases hf : seen.find? (fun kv => kv.1 == m.value) with _ | kv
    · -- first occurrence of the name: stored and recursed with extended map
      rw [hf] at h
      rcases hrec : chainMergeMeta rest ((m.value, m.untracked) :: seen) with e | out'
      · rw [hrec] at h; exact absurd h (by simp)
      rw [hrec] at h
      have hnokey : ∀ kv ∈ seen, kv.1 ≠ m.value := by
        intro kv hkv hk
        have := List.find?_eq_none.mp hf kv hkv
        simp [hk] at this
      have hnd' : (((m.value, m.untracked) :: seen).map Prod.fst).Nodup := by
        simp only [List.map_cons, List.nodup_cons]
        refine ⟨fun hmm => ?_, hnd⟩
        rcases List.mem_map.mp hmm with ⟨kv, hkv, hk⟩
        exact hnokey kv hkv hk
      obtain ⟨hs, hp⟩ := ih ((m.value, m.untracked) :: seen) out' hnd' hrec
      refine ⟨?_, ?_⟩
      · intro m' hm' kv hkv hk
        rcases List.mem_cons.mp hm' with rfl | hm''
        · exact absurd hk (hnokey kv hkv)
        · exact hs m' hm'' kv (List.mem_cons_of_mem _ hkv) hk
      · have hhead : ∀ m' ∈ rest, m'.value = m.value → m'.untracked = m.untracked := by
          intro m' hm' hv
          exact (hs m' hm' (m.value, m.untracked) (List.mem_cons_self _ _) hv.symm).symm
        intro m₁ hm₁ m₂ hm₂ hv
        rcases List.mem_cons.mp hm₁ with rfl | hm₁' <;>
          rcases List.mem_cons.mp hm₂ with rfl | hm₂'
        · rfl
        · exact (hhead m₂ hm₂' hv.symm).symm
        · exact hhead m₁ hm₁' hv
        · exact hp m₁ hm₁' m₂ hm₂' hv
    · -- the name was seen before: compare against the stored flag
      simp only [hf] at h
      have hkv_mem : kv ∈ seen := List.mem_of_find?_eq_some hf
      have hkv_key : kv.1 = m.value := by
        have := List.find?_some hf
        simpa using this
      by_cases hb : kv.2 = m.untracked
      · rw [if_neg (by simp [hb])] at h
        obtain ⟨hs, hp⟩ := ih seen out hnd h
        have hsame : ∀ kv' ∈ seen, kv'.1 = m.value → kv'.2 = m.untracked := by
          intro kv' hkv' hk
          have : kv' = kv := keys_nodup_unique hnd hkv' hkv_mem (by rw [hk, hkv_key])
          rw [this, hb]
        refine ⟨?_, ?_⟩
        · intro m' hm' kv' hkv' hk
          rcases List.mem_cons.mp hm' with rfl | hm''
          · exact hsame kv' hkv' hk
          · exact hs m' hm'' kv' hkv' hk
        · have hhead : ∀ m' ∈ rest, m'.value = m.value → m'.untracked = m.untracked := by
            intro m' hm' hv
            have h1 : kv.2 = m'.untracked := hs m' hm' kv hkv_mem (by rw [hkv_key, hv])
            rw [← h1, hb]
          intro m₁ hm₁ m₂ hm₂ hv
          rcases List.mem_cons.mp hm₁ with rfl | hm₁' <;>
            rcases List.mem_cons.mp hm₂ with rfl | hm₂'
          · rfl
          · exact (hhead m₂ hm₂' hv.symm).symm
          · exact hhead m₁ hm₁' hv
          · exact hp m₁ hm₁' m₂ hm₂' hv
      · rw [if_pos (by simp [hb])] at h
        exact absurd h (by simp)

theorem chainMergeMeta_consistent_ok (entries : List MetaEntry) :
    ∀ (seen : List (String × Bool)),
      (∀ m ∈ entries, ∀ kv ∈ seen, kv.1 = m.value → kv.2 = m.untracked) →
      (∀ m₁ ∈ entries, ∀ m₂ ∈ entries,
        m₁.value = m₂.value → m₁.untracked = m₂.untracked) →
      ∃ out, chainMergeMeta entries seen = .ok out ∧
        (out.map MetaEntry.value).Nodup ∧
        ∀ v, v ∈ out.map MetaEntry.value ↔
          (v ∈ entries.map MetaEntry.value ∧ ∀ kv ∈ seen, kv.1 ≠ v) := by
  induction entries with
  | nil =>
    intro seen _ _
    exact ⟨[], rfl, by simp, by simp⟩
  | cons m rest ih =>
    intro seen hseen hcons
    have hcons' : ∀ m₁ ∈ rest, ∀ m₂ ∈ rest,
        m₁.value = m₂.value → m₁.untracked = m₂.untracked :=
      fun m₁ h₁ m₂ h₂ => hcons m₁ (List.mem_cons_of_mem _ h₁) m₂ (List.mem_cons_of_mem _ h₂)
    rcases hf : seen.find? (fun kv => kv.1 == m.value) with _ | kv
    · have hnokey : ∀ kv ∈ seen, kv.1 ≠ m.value := by
        intro kv hkv hk
        have := List.find?_eq_none.mp hf kv hkv
        simp [hk] at this
      have hseen' : ∀ m' ∈ rest, ∀ kv ∈ ((m.value, m.untracked) :: seen),
          kv.1 = m'.value → kv.2 = m'.untracked := by
        intro m' hm' kv hkv hk
        rcases List.mem_cons.mp hkv with rfl | hkv'
        · exact hcons m (List.mem_cons_self _ _) m' (List.mem_cons_of_mem _ hm') hk
        · exact hseen m' (List.mem_cons_of_mem _ hm') kv hkv' hk
      obtain ⟨out', hout', hnd', hiff'⟩ :=
        ih ((m.value, m.untracked) :: seen) hseen' hcons'
      refine ⟨m :: out', ?_, ?_, ?_⟩
      · simp only [chainMergeMeta, hf, hout']
      · simp only [List.map_cons, List.nodup_cons]
        refine ⟨fun hmm => ?_, hnd'⟩
        have := (hiff' m.value).mp hmm
        exact this.2 (m.value, m.untracked) (List.mem_cons_self _ _) rfl
      · intro v
        simp only [List.map_cons, List.mem_cons]
        constructor
        · rintro (rfl | hv)
          · exact ⟨Or.inl rfl, fun kv hkv => hnokey kv hkv⟩
          · obtain ⟨hv1, hv2⟩ := (hiff' v).mp hv
            exact ⟨Or.inr hv1, fun kv hkv => hv2 kv (List.mem_cons_of_mem _ hkv)⟩
        · rintro ⟨hv1, hv2⟩
          by_cases hvm : v = m.value
          · exact Or.inl hvm
          · have hv1' : v ∈ rest.map MetaEntry.value := by
              rcases hv1 with hv1 | hv1
              · exact absurd hv1 hvm
              · exact hv1
            refine Or.inr ((hiff' v).mpr ⟨hv1', fun kv hkv => ?_⟩)
            rcases List.mem_cons.mp hkv with rfl | hkv'
            · exact fun hh => hvm hh.symm
            · exact hv2 kv hkv'
    · have hkv_mem : kv ∈ seen := List.mem_of_find?_eq_some hf
      have hkv_key : kv.1 = m.value := by
        have := List.find?_some hf
        simpa using this
      have hb : kv.2 = m.untracked :=
        hseen m (List.mem_cons_self _ _) kv hkv_mem hkv_key
      have hseen' : ∀ m' ∈ rest, ∀ kv ∈ seen,
          kv.1 = m'.value → kv.2 = m'.untracked :=
        fun m' hm' => hseen m' (List.mem_cons_of_mem _ hm')
      obtain ⟨out', hout', hnd', hiff'⟩ := ih seen hseen' hcons'
      refine ⟨out', ?_, hnd', ?_⟩
      · simp only [chainMergeMeta, hf]
        rw [if_neg (by simp [hb])]
        exact hout'
      · intro v
        rw [hiff' v]
        simp only [List.map_cons, List.mem_cons]
        constructor
        · rintro ⟨hv1, hv2⟩
          exact ⟨Or.inr hv1, hv2⟩
        · rintro ⟨hv0, hv2⟩
          rcases hv0 with rfl | hv1
          · exact absurd hkv_key (hv2 kv hkv_mem)
          · exact ⟨hv1, hv2⟩

/-- C6: merging metadata, a multi source raises the typed
parameter-collision error whenever the same parameter name occurs twice
among the children's entries; a chain raises the typed tracking-collision
error exactly when two entries for the same name disagree on the tracked
flag, and otherwise succeeds, reporting each name exactly once while
keeping every emitted name. -/
theorem c6_metadata_merge (entries : List MetaEntry) :
    (¬ (entries.map MetaEntry.value).Nodup →
      ∃ e, multiMergeMeta entries [] = .error e) ∧
    (¬ metaConsistent entries →
      ∃ e, chainMergeMeta entries [] = .error e) ∧
    (metaConsistent entries →
      ∃ out, chainMergeMeta entries [] = .ok out ∧
        (out.map MetaEntry.value).Nodup ∧
        ∀ v, v ∈ out.map MetaEntry.value ↔ v ∈ entries.map MetaEntry.value) := by
  refine ⟨fun hdup => ?_, fun hcons => ?_, fun hcons => ?_⟩
  · rcases hm : multiMergeMeta entries [] with e | out
    · exact ⟨e, rfl⟩
    · exact absurd (multiMergeMeta_ok_nodup entries [] out hm).1 hdup
  · rcases hm : chainMergeMeta entries [] with e | out
    · exact ⟨e, rfl⟩
    · exact absurd (chainMergeMeta_ok_consistent entries [] out (by simp) hm).2 hcons
  · obtain ⟨out, hout, hnd, hiff⟩ :=
      chainMergeMeta_consistent_ok entries [] (by simp) hcons
    exact ⟨out, hout, hnd, fun v => by simpa using hiff v⟩

theorem c6_witness :
    (∃ e, multiMergeMeta
      [MetaEntry.mk "a" false, MetaEntry.mk "a" false] [] = Except.error e) ∧
    (∃ e, chainMergeMeta
      [MetaEntry.mk "a" false, MetaEntry.mk "a" true] [] = Except.error e) ∧
    (∃ out, chainMergeMeta
        [MetaEntry.mk "a" false, MetaEntry.mk "b" true, MetaEntry.mk "a" false] []
        = Except.ok out ∧
      (out.map MetaEntry.value).Nodup ∧
      ∀ v, v ∈ out.map MetaEntry.value ↔
        v ∈ [MetaEntry.mk "a" false, MetaEntry.mk "b" true,
          MetaEntry.mk "a" false].map MetaEntry.value) := by
  refine ⟨(c6_metadata_merge _).1 (by decide),
    (c6_metadata_merge _).2.1 ?_, (c6_metadata_merge _).2.2 ?_⟩
  · unfold metaConsistent
    decide
  · unfold metaConsistent
    decide
